import Mathlib

/-!
# keybindings: a verification development of `cmd/keybindings/main.go`

The program reads a per-user settings file that lists application descriptors,
selects one of them (interactively or by name) and prints the keybindings found
in that application's configuration file.

Go strings and byte slices that hold text are embedded as `String` or
`List Char` (one `Char` per code point of the UTF-8 text; byte lengths are taken
with `Char.utf8Size`).  Go's `int` is embedded as `Int`; the only place where its
width matters is `strconv.Atoi`, which rejects values outside the 64-bit range.
The YAML codec and the regular-expression engine are external collaborators and
enter as parameters.
-/

set_option autoImplicit false

namespace Keybindings

/-! ## Data model (main.go lines 19-32) -/

/-- One application descriptor of the settings file (`type ApplicationConfig`). -/
structure ApplicationConfig where
  Name : String
  Path : String
  KeybindingPattern : String
  deriving DecidableEq, Repr

/-- The settings: an ordered list of descriptors (`type Config`). -/
structure Config where
  Applications : List ApplicationConfig
  deriving DecidableEq, Repr

/-- One extracted keybinding (`type Keybinding`). -/
structure Keybinding where
  Binding : String
  Definition : String
  deriving DecidableEq, Repr

/-! ## Built-in defaults (main.go lines 141-161) -/

/-- The function `defaultConfig`: the three built-in descriptors.  The Go literal of the
vim pattern contains four backslashes in a row, which denote two backslash characters. -/
def defaultConfig : Config :=
  { Applications :=
      [ { Name := "i3"
          Path := ".config/i3/config"
          KeybindingPattern := "bindsym ([a-zA-Z0-9$+]+) (.*)" },
        { Name := "vim"
          Path := ".vimrc"
          KeybindingPattern :=
            "(?:map|nmap|nnoremap|tnoremap) ((?:[a-zA-Z0-9<>-]|\\\\p\x7bPunct\x7d)+) (.*)" },
        { Name := "vifm"
          Path := ".config/vifm/vifmrc"
          KeybindingPattern := "nnoremap ([a-zA-Z0-9<>,]+) (.*)" } ] }

/-! ## Errors returned by the selection routines -/

/-- The two ways `strconv.Atoi` fails. -/
inductive NumError where
  | syntax_ : NumError
  | range : NumError
  deriving DecidableEq, Repr

/-- The errors that selection hands to `log.Fatal` in `main` (lines 81-83). -/
inductive SelectError where
  /-- The message `An error occured while reading input: ...` (line 217). -/
  | readInput : SelectError
  /-- The message `Unrecognized application name: <appName>` (line 245). -/
  | unrecognizedName (appName : String) : SelectError
  /-- The message `Zero or one command line expected, got <argNum>` (line 78). -/
  | argCount (argNum : Nat) : SelectError
  deriving DecidableEq, Repr

/-! ## Selection by name (main.go lines 236-246) -/

/-- The `for i, appConf := range config.Applications` loop of `getChoiceFromCommandLine`,
started at index `i`: the index of the first descriptor whose name equals `appName`. -/
def findByName (appName : String) : List ApplicationConfig → Nat → Option Nat
  | [], _ => none
  | appConf :: rest, i =>
    if appConf.Name = appName then some i else findByName appName rest (i + 1)

/-- The function `getChoiceFromCommandLine`.  `appName` is `os.Args[1]`, which exists
because `main` calls the function only when `len(os.Args) == 2`. -/
def getChoiceFromCommandLine (config : Config) (appName : String) : Except SelectError Int :=
  match findByName appName config.Applications 0 with
  | some i => .ok (i : Int)
  | none => .error (.unrecognizedName appName)

/-! ## `strconv.Atoi` (Go standard library, base 10, 64-bit `int`) -/

/-- The value of a decimal digit, `none` for any other character. -/
def digitValue (c : Char) : Option Nat :=
  if '0' ≤ c ∧ c ≤ '9' then some (c.toNat - '0'.toNat) else none

/-- Length of a text in bytes of its UTF-8 encoding (Go's `len(s)`). -/
def byteLen (s : List Char) : Nat :=
  (s.map fun c => c.utf8Size).sum

/-- Largest `uint64`. -/
def maxUint64 : Nat := 2 ^ 64 - 1

/-- The digit loop of `strconv.ParseUint(s, 10, 64)`: a syntax error at the first
character that is not a decimal digit, a range error as soon as the value leaves 64 bits. -/
def parseUintLoop : Nat → List Char → Except NumError Nat
  | n, [] => .ok n
  | n, c :: cs =>
    match digitValue c with
    | none => .error .syntax_
    | some d =>
      if n ≥ maxUint64 / 10 + 1 then .error .range
      else if n * 10 + d > maxUint64 then .error .range
      else parseUintLoop (n * 10 + d) cs

/-- Go's `strconv.ParseUint(s, 10, 64)`. -/
def parseUint (s : List Char) : Except NumError Nat :=
  if s = [] then .error .syntax_ else parseUintLoop 0 s

/-- Go's `strconv.ParseInt(s, 10, 0)` with a 64-bit `int`: an optional sign, then
`ParseUint`, then the check against the signed range. -/
def parseInt (s : List Char) : Except NumError Int :=
  match s with
  | [] => .error .syntax_
  | c :: cs =>
    let neg : Bool := c = '-'
    let body := if c = '+' ∨ c = '-' then cs else c :: cs
    match parseUint body with
    | .error e => .error e
    | .ok un =>
      if !neg ∧ un ≥ 2 ^ 63 then .error .range
      else if neg ∧ un > 2 ^ 63 then .error .range
      else .ok (if neg then -(un : Int) else (un : Int))

/-- The digit loop of the fast path of `strconv.Atoi`. -/
def atoiFastLoop : Nat → List Char → Except NumError Nat
  | n, [] => .ok n
  | n, ch :: rest =>
    match digitValue ch with
    | none => .error .syntax_
    | some d => atoiFastLoop (n * 10 + d) rest

/-- Go's `strconv.Atoi`: the fast path for texts of 1 to 18 bytes, `ParseInt` otherwise. -/
def Atoi (s : List Char) : Except NumError Int :=
  if 0 < byteLen s ∧ byteLen s < 19 then
    match s with
    | [] => .error .syntax_
    | c :: cs =>
      let signed : Bool := c = '-' ∨ c = '+'
      let body := if signed then cs else c :: cs
      if signed ∧ body = [] then .error .syntax_
      else
        match atoiFastLoop 0 body with
        | .error e => .error e
        | .ok n => .ok (if c = '-' then -(n : Int) else (n : Int))
  else parseInt s

/-- Go's `strings.TrimSuffix(input, "\n")`: drops one final newline when there is one. -/
def trimNewline : List Char → List Char
  | [] => []
  | [c] => if c = '\n' then [] else [c]
  | c :: d :: rest => c :: trimNewline (d :: rest)

/-! ## Standard input and `bufio.Reader.ReadString` -/

/-- Standard input as the sequence of results of the successive `read` calls that the
process makes: each element is the text one call returns.  An empty element, like the
end of the sequence, is end of input.  A terminal in line mode delivers one
newline-terminated line per call. -/
abbrev Stdin := List (List Char)

/-- What `ReadString` returns, with the part of standard input that is left. -/
structure ReadResult where
  input : List Char
  failed : Bool
  rest : Stdin
  deriving DecidableEq, Repr

/-- The prefix of a text up to and including its first newline, `none` without one. -/
def takeLine : List Char → Option (List Char)
  | [] => none
  | c :: cs => if c = '\n' then some ['\n'] else (takeLine cs).map (c :: ·)

/-- The body of `bufio.NewReader(os.Stdin).ReadString('\n')` on a reader that has
collected `acc` so far: it reads until its buffer holds a newline and returns the text up
to that newline; whatever the last read delivered after the newline stays in the buffer of
this reader.  At end of input it returns the text collected so far with the error. -/
def readStringFrom : List Char → Stdin → ReadResult
  | acc, [] => ⟨acc, true, []⟩
  | acc, chunk :: rest =>
    if chunk = [] then ⟨acc, true, rest⟩
    else
      match takeLine chunk with
      | some line => ⟨acc ++ line, false, rest⟩
      | none => readStringFrom (acc ++ chunk) rest

/-- The two statements `reader := bufio.NewReader(os.Stdin)` and
`reader.ReadString('\n')` of lines 214-215: a read through a fresh reader. -/
def readString (stdin : Stdin) : ReadResult :=
  readStringFrom [] stdin

theorem readStringFrom_rest_lt (acc : List Char) (stdin : Stdin)
    (h : (readStringFrom acc stdin).failed = false) :
    (readStringFrom acc stdin).rest.length < stdin.length := by
  induction stdin generalizing acc with
  | nil => simp [readStringFrom] at h
  | cons chunk rest ih =>
    unfold readStringFrom at h ⊢
    by_cases hc : chunk = []
    · simp [hc] at h
    · simp only [hc, if_false] at h ⊢
      cases hl : takeLine chunk with
      | some line => simp
      | none =>
        simp only [hl] at h ⊢
        exact Nat.lt_succ_of_lt (ih _ h)

/-! ## Paths and the file system -/

/-- A path as `filepath.Join` returns it: the empty string `""`, or a cleaned path,
rooted or relative, with its components.  The relative path without components is `.`,
the working directory. -/
inductive Path where
  | empty : Path
  | mk (absolute : Bool) (parts : List String) : Path
  deriving DecidableEq, Repr

/-- The components of a slash-separated path text. -/
def splitPath (s : List Char) : List String :=
  (s.splitOn '/').map String.mk

/-- The work of `filepath.Clean` on the components that `filepath.Join` appends to an
already cleaned path; `stack` holds the components so far, last one first.  Empty
components and `.` vanish, `..` removes the component before it, a `..` at the root
vanishes and a leading `..` of a relative path stays. -/
def cleanOnto (absolute : Bool) : List String → List String → List String
  | stack, [] => stack.reverse
  | stack, c :: cs =>
    if c = "" ∨ c = "." then cleanOnto absolute stack cs
    else if c = ".." then
      match stack with
      | [] => if absolute then cleanOnto absolute [] cs else cleanOnto absolute [".."] cs
      | top :: below =>
        if top = ".." then cleanOnto absolute (".." :: top :: below) cs
        else cleanOnto absolute below cs
    else cleanOnto absolute (c :: stack) cs

/-- Go's `filepath.Join(base, elem)` for an arbitrary text `elem`: empty elements are
ignored, the rest is joined and cleaned, and two empty elements give `""`. -/
def Path.join (base : Path) (elem : String) : Path :=
  match base with
  | .empty =>
    if elem = "" then .empty
    else
      let absolute : Bool := elem.data.head? = some '/'
      .mk absolute (cleanOnto absolute [] (splitPath elem.data))
  | .mk absolute parts => .mk absolute (cleanOnto absolute parts.reverse (splitPath elem.data))

/-- Go's `filepath.Join(base, name)` for a plain component `name` (no slash, not empty,
not `.` or `..`): the component is appended, and `Join("", name)` is `name`. -/
def Path.child (base : Path) (name : String) : Path :=
  match base with
  | .empty => .mk false [name]
  | .mk absolute parts => .mk absolute (parts ++ [name])

/-- The error numbers the model distinguishes. -/
inductive Errno where
  | ENOENT : Errno
  | ENOTDIR : Errno
  | EEXIST : Errno
  | EISDIR : Errno
  | EACCES : Errno
  deriving DecidableEq, Repr

/-- A directory (which may refuse new entries) or a regular file with its content. -/
inductive Node where
  | dir (writable : Bool) : Node
  | file (content : List Char) : Node
  deriving DecidableEq, Repr

/-- The file-system state: the working directory and the nodes by rooted path (the root
is the empty list of components); the first entry for a path is the current one. -/
structure FS where
  cwd : List String
  nodes : List (List String × Node)
  deriving DecidableEq, Repr

/-- The current node at a rooted path. -/
def nodeAt : List (List String × Node) → List String → Option Node
  | [], _ => none
  | (k, n) :: rest, p => if k = p then some n else nodeAt rest p

/-- Path resolution from the directory `pre` along the components `rest`: every
directory on the way has to exist (`ENOENT`) and be a directory (`ENOTDIR`). -/
def walkFrom (nodes : List (List String × Node)) : List String → List String → Except Errno Node
  | pre, [] =>
    match nodeAt nodes pre with
    | none => .error .ENOENT
    | some n => .ok n
  | pre, c :: cs =>
    match nodeAt nodes pre with
    | none => .error .ENOENT
    | some (.file _) => .error .ENOTDIR
    | some (.dir _) => walkFrom nodes (pre ++ [c]) cs

/-- The rooted components a path denotes: a relative path starts at the working
directory, where a leading `..` steps up; the empty path `""` denotes nothing. -/
def FS.resolve (fs : FS) (p : Path) : Option (List String) :=
  match p with
  | .empty => none
  | .mk true parts => some parts
  | .mk false parts => some (cleanOnto true fs.cwd.reverse parts)

/-- The node a path leads to. -/
def FS.lookup (fs : FS) (p : Path) : Except Errno Node :=
  match fs.resolve p with
  | none => .error .ENOENT
  | some q => walkFrom fs.nodes [] q

/-- Go's `os.Stat`, reduced to whether it succeeds and with which error it fails. -/
def FS.stat (fs : FS) (p : Path) : Except Errno Unit :=
  match fs.lookup p with
  | .error e => .error e
  | .ok _ => .ok ()

/-- Creation of the node `n` at a path that does not exist: the parent has to be a
directory that accepts new entries. -/
def FS.create (fs : FS) (q : List String) (n : Node) : Except Errno FS :=
  match walkFrom fs.nodes [] q.dropLast with
  | .error e => .error e
  | .ok (.file _) => .error .ENOTDIR
  | .ok (.dir false) => .error .EACCES
  | .ok (.dir true) => .ok { fs with nodes := (q, n) :: fs.nodes }

/-- Go's `os.Mkdir(p, os.ModePerm)`. -/
def FS.mkdir (fs : FS) (p : Path) : Except Errno FS :=
  match fs.resolve p with
  | none => .error .ENOENT
  | some q =>
    match walkFrom fs.nodes [] q with
    | .ok _ => .error .EEXIST
    | .error .ENOENT => fs.create q (.dir true)
    | .error e => .error e

/-- Go's `os.WriteFile(p, content, 0644)`: replaces the content of an existing file and
creates a missing one. -/
def FS.writeFile (fs : FS) (p : Path) (content : List Char) : Except Errno FS :=
  match fs.resolve p with
  | none => .error .ENOENT
  | some q =>
    match walkFrom fs.nodes [] q with
    | .ok (.file _) => .ok { fs with nodes := (q, .file content) :: fs.nodes }
    | .ok (.dir _) => .error .EISDIR
    | .error .ENOENT => fs.create q (.file content)
    | .error e => .error e

/-- Go's `os.ReadFile`. -/
def FS.readFile (fs : FS) (p : Path) : Except Errno (List Char) :=
  match fs.lookup p with
  | .error e => .error e
  | .ok (.dir _) => .error .EISDIR
  | .ok (.file content) => .ok content

/-! ## Locations of the settings (main.go lines 190-201) -/

/-- The function `configurationDirectory`; `home` is the result of `os.UserHomeDir`
(`none` when it fails).  On failure the Go function returns `""` with the error. -/
def configurationDirectory (home : Option Path) : Path × Bool :=
  match home with
  | none => (.empty, true)
  | some userHomeDir => ((userHomeDir.child ".config").child "keybindings", false)

/-- The function `configurationPath`. -/
def configurationPath (configDir : Path) : Path :=
  configDir.child "config.yml"

/-! ## Interactive selection (main.go lines 203-234) -/

/-- What the program writes to standard output, one constructor per print statement. -/
inductive Out where
  /-- The text `"\nChoose application:\n\n"` (line 204). -/
  | chooseApplication : Out
  /-- The text `"(%d)  %s\n"` (line 206). -/
  | menuItem (i : Nat) (name : String) : Out
  /-- The text `"\nChoice: "` (line 212). -/
  | choicePrompt : Out
  /-- The text `"\nInvalid input: %s\n"` (line 222), with the text that failed to parse. -/
  | invalidInput (text : List Char) (e : NumError) : Out
  /-- The text `"Choice should be between 0 and %d\n"` (line 228). -/
  | choiceRange (upper : Int) : Out
  /-- The usage text (lines 67-72) with the program name and the settings path. -/
  | usage (prog : String) (configPath : Path) : Out
  /-- The call `fmt.Println("")` (lines 136 and 138). -/
  | blankLine : Out
  /-- The call `tbl.Print()` (line 137): the header and one row per keybinding. -/
  | table (rows : List Keybinding) : Out
  deriving DecidableEq, Repr

/-- The state in which `getChoiceFromTerminal` returns. -/
structure TerminalResult where
  result : Except SelectError Int
  stdout : List Out
  stdin : Stdin

/-- The menu printed by the loop of lines 205-207, for the descriptors from index `i` on. -/
def menuItems : List ApplicationConfig → Nat → List Out
  | [], _ => []
  | app :: rest, i => .menuItem i app.Name :: menuItems rest (i + 1)

/-- The loop `for !inputOK` of `getChoiceFromTerminal` (lines 211-231); `out` is what has
been printed so far. -/
def choiceLoop (config : Config) (stdin : Stdin) (out : List Out) : TerminalResult :=
  let out := out ++ [.choicePrompt]
  if h : (readString stdin).failed = true then
    ⟨.error .readInput, out, (readString stdin).rest⟩
  else
    have : (readString stdin).rest.length < stdin.length :=
      readStringFrom_rest_lt [] stdin (by simpa using h)
    let text := trimNewline (readString stdin).input
    match Atoi text with
    | .error e =>
      choiceLoop config (readString stdin).rest (out ++ [.invalidInput text e])
    | .ok choice =>
      if choice < 0 ∨ choice ≥ (config.Applications.length : Int) then
        choiceLoop config (readString stdin).rest
          (out ++ [.choiceRange ((config.Applications.length : Int) - 1)])
      else ⟨.ok choice, out, (readString stdin).rest⟩
termination_by stdin.length

/-- The function `getChoiceFromTerminal`: the menu, then the prompt loop. -/
def getChoiceFromTerminal (config : Config) (stdin : Stdin) : TerminalResult :=
  choiceLoop config stdin (.chooseApplication :: menuItems config.Applications 0)

/-! ## External collaborators -/

/-- A compiled regular expression as the program sees it: the number of capture groups
and, for a line, the ordered list of its matches.  A match lists the text of the whole
match followed by the text of every capture group, so it has `numSubexp + 1` entries. -/
structure Regexp where
  numSubexp : Nat
  findAllSubmatch : String → List (List String)
  submatch_length : ∀ line m, m ∈ findAllSubmatch line → m.length = numSubexp + 1

/-- The YAML codec (`yaml.Marshal`, `yaml.Unmarshal`) and `regexp.Compile`; each
returns a result or an error message. -/
structure Libs where
  yamlMarshal : Config → Except String (List Char)
  yamlUnmarshal : List Char → Except String Config
  regexpCompile : String → Except String Regexp

/-! ## Bootstrap of the settings file (main.go lines 163-188) -/

/-- The errors `ensureConfig` returns. -/
inductive EnsureError where
  /-- The message `Couldn't create config directory (...)` (line 168). -/
  | createDirectory (configDir : Path) (e : Errno) : EnsureError
  /-- The message `Error marshalling default config` (line 178). -/
  | marshal (msg : String) : EnsureError
  /-- The message `Error creating default config` (line 183). -/
  | createFile (e : Errno) : EnsureError
  deriving DecidableEq, Repr

/-- Lines 166-170 of `ensureConfig`: the directory is created when `os.Stat` reports
that it does not exist; any other outcome of `os.Stat` leaves the state as it is. -/
def ensureDirectory (fs : FS) (configDir : Path) : Except Errno FS :=
  match fs.stat configDir with
  | .error .ENOENT => fs.mkdir configDir
  | _ => .ok fs

/-- Lines 174-185 of `ensureConfig`: the defaults are written when `os.Stat` reports
that the settings file does not exist; any other outcome of `os.Stat` leaves the state as
it is.  The result is the error returned (`none` for `nil`) and the state left. -/
def ensureFile (libs : Libs) (fs : FS) (configPath : Path) : Option EnsureError × FS :=
  match fs.stat configPath with
  | .error .ENOENT =>
    match libs.yamlMarshal defaultConfig with
    | .error msg => (some (.marshal msg), fs)
    | .ok bytes =>
      match fs.writeFile configPath bytes with
      | .error e => (some (.createFile e), fs)
      | .ok fs1 => (none, fs1)
  | _ => (none, fs)

/-- The function `ensureConfig` on the file-system state `fs`: the error it returns
(`none` for `nil`) and the state it leaves.  The error of `configurationDirectory` is
dropped, as in line 164. -/
def ensureConfig (libs : Libs) (home : Option Path) (fs : FS) : Option EnsureError × FS :=
  let configDir := (configurationDirectory home).1
  match ensureDirectory fs configDir with
  | .error e => (some (.createDirectory configDir e), fs)
  | .ok fs1 => ensureFile libs fs1 (configurationPath configDir)

/-! ## Extraction (main.go lines 96-125) -/

/-- Go's `bufio.MaxScanTokenSize`. -/
def maxScanTokenSize : Nat := 64 * 1024

/-- The text cut at every newline; `cur` holds the line in progress, last character
first.  A final line without newline counts when it is not empty. -/
def rawLines : List Char → List Char → List (List Char)
  | cur, [] => if cur = [] then [] else [cur.reverse]
  | cur, c :: cs => if c = '\n' then cur.reverse :: rawLines [] cs else rawLines (c :: cur) cs

/-- The helper `dropCR` of `bufio.ScanLines`: drops one final carriage return. -/
def dropCR (line : List Char) : List Char :=
  if line.getLast? = some '\r' then line.dropLast else line

/-- The tokens that successive calls of `scanner.Scan()` deliver for the given raw
lines, and whether scanning stopped with `bufio.ErrTooLong`: a line whose text fills
the largest buffer before its newline is seen ends the scan. -/
def scanTokens : List (List Char) → List String × Bool
  | [] => ([], false)
  | line :: rest =>
    if byteLen line ≥ maxScanTokenSize then ([], true)
    else (String.mk (dropCR line) :: (scanTokens rest).1, (scanTokens rest).2)

/-- The scanner of line 98 over the whole content, with the default split function
`bufio.ScanLines`. -/
def scanLines (confBytes : List Char) : List String × Bool :=
  scanTokens (rawLines [] confBytes)

/-- The inner loop of lines 111-119 over the matches of one line.  The accesses
`match[1]` and `match[2]` fail when the match has no such entry (`none`: the run-time
panic `index out of range`). -/
def appendMatches : List (List String) → List Keybinding → Option (List Keybinding)
  | [], keybindings => some keybindings
  | m :: rest, keybindings =>
    match m[1]?, m[2]? with
    | some binding, some definition =>
      appendMatches rest (keybindings ++ [⟨binding, definition⟩])
    | _, _ => none

/-- The loop `for scanner.Scan()` of lines 105-121 over the lines the scanner delivers;
`findAllSubmatch` is `re.FindAllSubmatch(line, -1)`. -/
def extractLoop (findAllSubmatch : String → List (List String)) :
    List String → List Keybinding → Option (List Keybinding)
  | [], keybindings => some keybindings
  | line :: rest, keybindings =>
    let matched := findAllSubmatch line
    if matched.length > 0 then
      match appendMatches matched keybindings with
      | none => none
      | some keybindings1 => extractLoop findAllSubmatch rest keybindings1
    else extractLoop findAllSubmatch rest keybindings

/-- The messages of `log.Fatal` and `log.Fatalf` in `main`. -/
inductive Fatal where
  /-- The message `Configuration error: ...` (line 37). -/
  | configuration (e : EnsureError) : Fatal
  /-- The message `Error acquiring configuration directory: ...` (line 42). -/
  | configurationDirectory : Fatal
  /-- The message `Error reading config file: ...` (line 49). -/
  | readSettings (e : Errno) : Fatal
  /-- The message `Error processing config file: ...` (line 55). -/
  | processSettings (msg : String) : Fatal
  /-- The error of the selection (line 82). -/
  | selection (e : SelectError) : Fatal
  /-- The message `Error retrieving the home directory` (line 87). -/
  | homeDirectory : Fatal
  /-- The message `Error reading config file (path): ...` (line 93). -/
  | readTarget (configPath : Path) (e : Errno) : Fatal
  /-- The message `Regexp could not be compiled (pattern): ...` (line 102). -/
  | regexpCompile (pattern : String) (msg : String) : Fatal
  /-- The message `Error parsing config file (path): ...` (line 124). -/
  | parseTarget (configPath : Path) : Fatal
  deriving DecidableEq, Repr

/-- How a run of the program ends. -/
inductive Exit where
  /-- Return from `main` or `os.Exit(0)`. -/
  | success : Exit
  /-- The functions `log.Fatal` and `log.Fatalf`: the message, then `os.Exit(1)`. -/
  | fatal (f : Fatal) : Exit
  /-- A run-time panic `index out of range`. -/
  | panicIndex : Exit
  deriving DecidableEq, Repr

/-- The exit status of the process. -/
def Exit.status : Exit → Nat
  | .success => 0
  | .fatal _ => 1
  | .panicIndex => 2

/-- Lines 96-125 of `main`: compile the pattern, run the loop over the lines of the
content, then look at the scanner's error.  The result is the keybinding sequence or
the way the run ends. -/
def extraction (libs : Libs) (configPath : Path) (pattern : String) (confBytes : List Char) :
    Except Exit (List Keybinding) :=
  match libs.regexpCompile pattern with
  | .error msg => .error (.fatal (.regexpCompile pattern msg))
  | .ok re =>
    match extractLoop re.findAllSubmatch (scanLines confBytes).1 [] with
    | none => .error .panicIndex
    | some keybindings =>
      if (scanLines confBytes).2 then .error (.fatal (.parseTarget configPath))
      else .ok keybindings

/-! ## The program (main.go lines 34-139) -/

/-- A finished run: how it ended, what it printed, the file-system state it left, and
the paths it passed to `os.ReadFile`, in order. -/
structure Run where
  exit : Exit
  stdout : List Out
  fs : FS
  filesRead : List Path

/-- The descriptor `config.Applications[choice]`; `none` when the index is out of range. -/
def application (config : Config) (choice : Int) : Option ApplicationConfig :=
  if choice < 0 then none else config.Applications[choice.toNat]?

/-- Lines 81-139 of `main`, entered with the result of the selection, the output so far
and the settings path that was read. -/
def display (libs : Libs) (home : Option Path) (fs : FS) (config : Config)
    (settingsPath : Path) (selected : Except SelectError Int) (out : List Out) : Run :=
  match selected with
  | .error e => ⟨.fatal (.selection e), out, fs, [settingsPath]⟩
  | .ok choice =>
    match home with
    | none => ⟨.fatal .homeDirectory, out, fs, [settingsPath]⟩
    | some userHomeDir =>
      match application config choice with
      | none => ⟨.panicIndex, out, fs, [settingsPath]⟩
      | some app =>
        let configPath := userHomeDir.join app.Path
        match fs.readFile configPath with
        | .error e => ⟨.fatal (.readTarget configPath e), out, fs, [settingsPath, configPath]⟩
        | .ok confBytes =>
          match extraction libs configPath app.KeybindingPattern confBytes with
          | .error exit => ⟨exit, out, fs, [settingsPath, configPath]⟩
          | .ok keybindings =>
            ⟨.success, out ++ [.blankLine, .table keybindings, .blankLine], fs,
              [settingsPath, configPath]⟩

/-- Lines 58-79 of `main`: the selection by the number of entries of `os.Args`, whose
first entry is the program name.  With two entries the second one is `os.Args[1]`. -/
def dispatch (libs : Libs) (home : Option Path) (osArgs : List String) (stdin : Stdin)
    (fs : FS) (config : Config) (settingsPath : Path) : Run :=
  match osArgs with
  | [_] =>
    let t := getChoiceFromTerminal config stdin
    display libs home fs config settingsPath t.result t.stdout
  | [prog, arg] =>
    if arg = "-h" ∨ arg = "--help" then
      ⟨.success, [.usage prog settingsPath], fs, [settingsPath]⟩
    else display libs home fs config settingsPath (getChoiceFromCommandLine config arg) []
  | _ => display libs home fs config settingsPath (.error (.argCount osArgs.length)) []

/-- The function `main`: bootstrap, load, selection, extraction and display. -/
def main (libs : Libs) (home : Option Path) (osArgs : List String) (stdin : Stdin)
    (fs : FS) : Run :=
  match ensureConfig libs home fs with
  | (some e, fs1) => ⟨.fatal (.configuration e), [], fs1, []⟩
  | (none, fs1) =>
    match configurationDirectory home with
    | (_, true) => ⟨.fatal .configurationDirectory, [], fs1, []⟩
    | (configDir, false) =>
      let configPath := configurationPath configDir
      match fs1.readFile configPath with
      | .error e => ⟨.fatal (.readSettings e), [], fs1, [configPath]⟩
      | .ok confBytes =>
        match libs.yamlUnmarshal confBytes with
        | .error msg => ⟨.fatal (.processSettings msg), [], fs1, [configPath]⟩
        | .ok config => dispatch libs home osArgs stdin fs1 config configPath

/-! ## Properties of descriptors -/

/-- Where a scan of a pattern text stands: in the pattern proper, inside a character
class `[...]`, inside a named class `[:...:]` within a character class, or inside a
quoted stretch between the escapes `Q` and `E`. -/
inductive PatternMode where
  | plain : PatternMode
  | inClass : PatternMode
  | inNamedClass : PatternMode
  | quoted : PatternMode
  deriving DecidableEq, Repr

/-- The number of capturing groups of a pattern text, as the syntax of Go's `regexp`
reads it: the opening parentheses that are not escaped by a backslash, not quoted, and
not inside a character class, except those followed by `?`, which open a group that
does not capture (`(?:`) or set flags (`(?i)`), unless they start a named group `(?P<`
or `(?<`.  A `]` that directly follows the opening of a character class belongs to the
class. -/
def countCapturing : PatternMode → List Char → Nat
  | _, [] => 0
  | .quoted, c :: rest =>
    if c = '\\' ∧ rest.head? = some 'E' then
      match rest with
      | [] => 0
      | _ :: rest1 => countCapturing .plain rest1
    else countCapturing .quoted rest
  | .inNamedClass, c :: rest =>
    if c = ':' ∧ rest.head? = some ']' then
      match rest with
      | [] => 0
      | _ :: rest1 => countCapturing .inClass rest1
    else countCapturing .inNamedClass rest
  | .inClass, c :: rest =>
    if c = '\\' then
      match rest with
      | [] => 0
      | _ :: rest1 => countCapturing .inClass rest1
    else if c = ']' then countCapturing .plain rest
    else if c = '[' ∧ rest.head? = some ':' then
      match rest with
      | [] => 0
      | _ :: rest1 => countCapturing .inNamedClass rest1
    else countCapturing .inClass rest
  | .plain, c :: rest =>
    if c = '\\' then
      match rest with
      | [] => 0
      | d :: rest1 =>
        if d = 'Q' then countCapturing .quoted rest1 else countCapturing .plain rest1
    else if c = '[' then
      if rest.take 2 = ['^', ']'] then
        match rest with
        | _ :: _ :: rest1 => countCapturing .inClass rest1
        | _ => 0
      else if rest.head? = some ']' then
        match rest with
        | [] => 0
        | _ :: rest1 => countCapturing .inClass rest1
      else countCapturing .inClass rest
    else if c = '(' then
      if rest.head? = some '?' ∧ rest.take 3 ≠ ['?', 'P', '<'] ∧ rest.take 2 ≠ ['?', '<'] then
        countCapturing .plain rest
      else 1 + countCapturing .plain rest
    else countCapturing .plain rest

/-- The number of capturing groups of a pattern. -/
def capturingGroups (pattern : String) : Nat :=
  countCapturing .plain pattern.data

/-- A path text is relative when it does not start with the path separator. -/
def isRelativePath (path : String) : Bool :=
  path.data.head? != some '/'

/-! ## Lines typed at the prompt -/

/-- The choice a typed line stands for: `some v` when its text parses with
`strconv.Atoi` to an integer `v` with `0 ≤ v ≤ count - 1`, `none` otherwise. -/
def choiceOf (config : Config) (line : List Char) : Option Int :=
  match Atoi line with
  | .error _ => none
  | .ok v => if 0 ≤ v ∧ v < (config.Applications.length : Int) then some v else none

/-- What the loop prints for a line it rejects: the parse error, or the range notice for
an integer outside the range. -/
def rejection (config : Config) (line : List Char) : Out :=
  match Atoi line with
  | .error e => .invalidInput line e
  | .ok _ => .choiceRange ((config.Applications.length : Int) - 1)

/-- What a terminal in line mode delivers for a typed line: its text and the newline. -/
def typedLine (line : List Char) : List Char :=
  line ++ ['\n']

/-- The prompt and the rejection notice for each of the given rejected lines. -/
def reprompts (config : Config) : List (List Char) → List Out
  | [] => []
  | line :: rest => .choicePrompt :: rejection config line :: reprompts config rest

/-! ## What extraction is expected to collect -/

/-- The keybinding a match stands for: capture group 1 and capture group 2. -/
def keybindingOf (m : List String) : Keybinding :=
  ⟨m.getD 1 "", m.getD 2 ""⟩

/-- The keybindings of the given lines: for each line in order, for each of its matches
in order, the keybinding of the match. -/
def keybindingsOf (findAllSubmatch : String → List (List String)) :
    List String → List Keybinding
  | [] => []
  | line :: rest =>
    (findAllSubmatch line).map keybindingOf ++ keybindingsOf findAllSubmatch rest

/-- The total number of matches of the given lines. -/
def matchCount (findAllSubmatch : String → List (List String)) : List String → Nat
  | [] => 0
  | line :: rest => (findAllSubmatch line).length + matchCount findAllSubmatch rest

/-! ## An example environment -/

/-- The compiled form of the pattern `^(a)$`: one capture group; the only line with a
match is `a`, whose single match has the entries `a` (whole match) and `a` (group 1). -/
def anchoredA : Regexp where
  numSubexp := 1
  findAllSubmatch := fun line => if line = "a" then [["a", "a"]] else []
  submatch_length := by
    intro line m hm
    by_cases h : line = "a"
    · simp only [h, if_true, List.mem_singleton] at hm
      subst hm; rfl
    · simp [h] at hm

/-- Example settings with a single descriptor, whose name is `-h`. -/
def helpNamedConfig : Config :=
  { Applications := [ { Name := "-h", Path := ".vimrc", KeybindingPattern := "^(a)$" } ] }

/-- An example of the external collaborators: a codec that writes the settings as the
text `applications`, reads that text as the default settings and the text `help` as the
settings with the descriptor named `-h`, and a compiler that knows the pattern `^(a)$`
only. -/
def exampleLibs : Libs where
  yamlMarshal := fun _ => .ok "applications".data
  yamlUnmarshal := fun text =>
    if text = "applications".data then .ok defaultConfig
    else if text = "help".data then .ok helpNamedConfig
    else .error "cannot unmarshal"
  regexpCompile := fun pattern =>
    if pattern = "^(a)$" then .ok anchoredA else .error "unknown pattern"

/-- An example home directory, `/home/u`. -/
def exampleHome : Path :=
  .mk true ["home", "u"]

/-- An example file system before the first run: `/home/u/.config` exists, the settings
directory does not. -/
def exampleFS : FS where
  cwd := []
  nodes :=
    [ ([], .dir true), (["home"], .dir true), (["home", "u"], .dir true),
      (["home", "u", ".config"], .dir true) ]

/-- An example file system of a later run: the settings file exists and holds the text
`help`. -/
def configuredFS : FS where
  cwd := []
  nodes :=
    [ ([], .dir true), (["home"], .dir true), (["home", "u"], .dir true),
      (["home", "u", ".config"], .dir true),
      (["home", "u", ".config", "keybindings"], .dir true),
      (["home", "u", ".config", "keybindings", "config.yml"], .file "help".data) ]

/-- An example matcher with two capture groups, the behaviour of the default i3 pattern
`bindsym ([a-zA-Z0-9$+]+) (.*)` on the lines of the example file below: the line
`bindsym $mod+Return exec alacritty` has one match, the comment line has none. -/
def exampleMatcher : String → List (List String) :=
  fun line =>
    if line = "bindsym $mod+Return exec alacritty" then
      [["bindsym $mod+Return exec alacritty", "$mod+Return", "exec alacritty"]]
    else []

/-- An example target file of two lines. -/
def exampleTarget : List Char :=
  "# terminal\nbindsym $mod+Return exec alacritty\n".data

/-! # Theorems -/

/-! ## Selection by name: proofs -/

theorem findByName_eq_none (appName : String) (apps : List ApplicationConfig) (i : Nat) :
    findByName appName apps i = none ↔ ∀ d ∈ apps, d.Name ≠ appName := by
  induction apps generalizing i with
  | nil => simp [findByName]
  | cons a rest ih =>
    by_cases h : a.Name = appName
    · simp [findByName, h]
    · simp [findByName, h, ih]

theorem findByName_eq_some (appName : String) (apps : List ApplicationConfig) (i k : Nat) :
    findByName appName apps i = some k ↔
      ∃ j, k = i + j ∧ (∃ d, apps[j]? = some d ∧ d.Name = appName) ∧
        ∀ j', j' < j → ∀ d, apps[j']? = some d → d.Name ≠ appName := by
  induction apps generalizing i with
  | nil => simp [findByName]
  | cons a rest ih =>
    by_cases h : a.Name = appName
    · simp only [findByName, h, if_true, Option.some.injEq]
      constructor
      · intro hk
        exact ⟨0, by omega, ⟨a, by simp, h⟩, by intro j' hj'; omega⟩
      · rintro ⟨j, hk, -, hmin⟩
        cases j with
        | zero => omega
        | succ j => exact absurd h (hmin 0 (by omega) a (by simp))
    · simp only [findByName, h, if_false, ih]
      constructor
      · rintro ⟨j, hk, ⟨d, hd, hname⟩, hmin⟩
        refine ⟨j + 1, by omega, ⟨d, by simpa using hd, hname⟩, ?_⟩
        intro j' hj' d' hd'
        cases j' with
        | zero =>
          simp only [List.getElem?_cons_zero, Option.some.injEq] at hd'
          subst hd'; exact h
        | succ j' => exact hmin j' (by omega) d' (by simpa using hd')
      · rintro ⟨j, hk, ⟨d, hd, hname⟩, hmin⟩
        cases j with
        | zero =>
          simp only [List.getElem?_cons_zero, Option.some.injEq] at hd
          subst hd; exact absurd hname h
        | succ j =>
          refine ⟨j, by omega, ⟨d, by simpa using hd, hname⟩, ?_⟩
          intro j' hj' d' hd'
          exact hmin (j' + 1) (by omega) d' (by simpa using hd')

/-- C1. `getChoiceFromCommandLine` returns the index `i` without error exactly when the
descriptor at index `i` has the given name and no descriptor at a smaller index has it;
it returns the error that names the argument exactly when no descriptor has the name.
Against the default settings `vim` gives index 1 and `nope` gives the error. -/
theorem getChoiceFromCommandLine_first_match (config : Config) (appName : String) :
    (∀ choice : Int, getChoiceFromCommandLine config appName = .ok choice ↔
      ∃ i : Nat, choice = (i : Int) ∧
        (∃ d, config.Applications[i]? = some d ∧ d.Name = appName) ∧
        ∀ j, j < i → ∀ d, config.Applications[j]? = some d → d.Name ≠ appName) ∧
    (∀ e, getChoiceFromCommandLine config appName = .error e ↔
      e = .unrecognizedName appName ∧ ∀ d ∈ config.Applications, d.Name ≠ appName) ∧
    getChoiceFromCommandLine defaultConfig "vim" = .ok 1 ∧
    getChoiceFromCommandLine defaultConfig "nope" = .error (.unrecognizedName "nope") := by
  refine ⟨?_, ?_, by rfl, by rfl⟩
  · intro choice
    unfold getChoiceFromCommandLine
    cases hf : findByName appName config.Applications 0 with
    | none =>
      have hnone := (findByName_eq_none appName config.Applications 0).1 hf
      simp only [reduceCtorEq, false_iff, not_exists, not_and]
      rintro i - ⟨d, hd, hname⟩
      exact absurd hname (hnone d (List.getElem?_mem hd))
    | some k =>
      obtain ⟨j, hk, hd, hmin⟩ := (findByName_eq_some appName config.Applications 0 k).1 hf
      have hkj : k = j := by omega
      subst hkj
      simp only [Except.ok.injEq]
      constructor
      · intro hc
        exact ⟨k, hc.symm, hd, hmin⟩
      · rintro ⟨i, hci, hdi, hmini⟩
        have hik : findByName appName config.Applications 0 = some i :=
          (findByName_eq_some appName config.Applications 0 i).2 ⟨i, by omega, hdi, hmini⟩
        rw [hf] at hik
        have : k = i := by simpa using hik
        subst this; exact hci.symm
  · intro e
    unfold getChoiceFromCommandLine
    cases hf : findByName appName config.Applications 0 with
    | none =>
      have hnone := (findByName_eq_none appName config.Applications 0).1 hf
      simp only [Except.error.injEq]
      constructor
      · intro he; exact ⟨he.symm, hnone⟩
      · rintro ⟨he, -⟩; exact he.symm
    | some k =>
      have hne : findByName appName config.Applications 0 ≠ none := by simp [hf]
      simp only [reduceCtorEq, false_iff, not_and]
      intro _ hall
      exact hne ((findByName_eq_none appName config.Applications 0).2 hall)

/-! ## The built-in defaults: proofs -/

/-- C8. `defaultConfig` returns exactly three descriptors, named i3, vim and vifm in this
order; the names are pairwise distinct, every path is relative and every pattern has
exactly two capturing groups. -/
theorem defaultConfig_wellFormed :
    defaultConfig.Applications.length = 3 ∧
    defaultConfig.Applications.map (fun app => app.Name) = ["i3", "vim", "vifm"] ∧
    (defaultConfig.Applications.map (fun app => app.Name)).Nodup ∧
    ∀ app ∈ defaultConfig.Applications,
      isRelativePath app.Path = true ∧ capturingGroups app.KeybindingPattern = 2 := by
  refine ⟨rfl, rfl, by decide, ?_⟩
  intro app happ
  simp only [defaultConfig, List.mem_cons, List.mem_singleton, List.not_mem_nil, or_false] at happ
  rcases happ with h | h | h <;> subst h <;> exact ⟨by rfl, by rfl⟩

/-! ## Interactive selection: proofs -/

theorem takeLine_typedLine (line : List Char) (h : '\n' ∉ line) :
    takeLine (typedLine line) = some (typedLine line) := by
  induction line with
  | nil => simp [typedLine, takeLine]
  | cons c cs ih =>
    have hc : c ≠ '\n' := fun hc => h (by simp [hc])
    have hcs : '\n' ∉ cs := fun hcs => h (by simp [hcs])
    have ih1 := ih hcs
    simp only [typedLine] at ih1 ⊢
    simp [takeLine, hc, ih1]

theorem takeLine_eq_none (text : List Char) (h : '\n' ∉ text) : takeLine text = none := by
  induction text with
  | nil => rfl
  | cons c cs ih =>
    have hc : c ≠ '\n' := fun hc => h (by simp [hc])
    have hcs : '\n' ∉ cs := fun hcs => h (by simp [hcs])
    simp [takeLine, hc, ih hcs]

theorem trimNewline_typedLine (line : List Char) (h : '\n' ∉ line) :
    trimNewline (typedLine line) = line := by
  induction line with
  | nil => simp [typedLine, trimNewline]
  | cons c cs ih =>
    have hcs : '\n' ∉ cs := fun hcs => h (by simp [hcs])
    have ih1 := ih hcs
    simp only [typedLine] at ih1 ⊢
    cases cs with
    | nil => simp [trimNewline]
    | cons d ds =>
      simp only [List.cons_append, trimNewline] at ih1 ⊢
      exact congrArg (c :: ·) ih1

theorem readString_typedLine (line : List Char) (rest : Stdin) (h : '\n' ∉ line) :
    readString (typedLine line :: rest) = ⟨typedLine line, false, rest⟩ := by
  have hne : typedLine line ≠ [] := by simp [typedLine]
  simp [readString, readStringFrom, hne, takeLine_typedLine line h]

theorem readString_nil : readString [] = ⟨[], true, []⟩ := rfl

theorem readString_unterminated (text : List Char) (h : '\n' ∉ text) :
    (readString [text]).failed = true := by
  by_cases hne : text = []
  · simp [readString, readStringFrom, hne]
  · simp [readString, readStringFrom, hne, takeLine_eq_none text h]

/-- One turn of the prompt loop, as an equation. -/
theorem choiceLoop_step (config : Config) (stdin : Stdin) (out : List Out) :
    choiceLoop config stdin out =
      if (readString stdin).failed = true then
        ⟨.error .readInput, out ++ [.choicePrompt], (readString stdin).rest⟩
      else
        match Atoi (trimNewline (readString stdin).input) with
        | .error e =>
          choiceLoop config (readString stdin).rest
            (out ++ [.choicePrompt] ++ [.invalidInput (trimNewline (readString stdin).input) e])
        | .ok choice =>
          if choice < 0 ∨ choice ≥ (config.Applications.length : Int) then
            choiceLoop config (readString stdin).rest
              (out ++ [.choicePrompt] ++ [.choiceRange ((config.Applications.length : Int) - 1)])
          else ⟨.ok choice, out ++ [.choicePrompt], (readString stdin).rest⟩ := by
  rw [choiceLoop]
  by_cases h : (readString stdin).failed = true
  · simp [h]
  · simp only [h, dite_false, if_false]
    rfl

/-- One turn of the prompt loop on a typed line: a valid line ends the loop with its
value, any other line is answered with its rejection notice and the loop goes on. -/
theorem choiceLoop_typedLine (config : Config) (line : List Char) (rest : Stdin)
    (out : List Out) (h : '\n' ∉ line) :
    choiceLoop config (typedLine line :: rest) out =
      match choiceOf config line with
      | some v => ⟨.ok v, out ++ [.choicePrompt], rest⟩
      | none => choiceLoop config rest (out ++ [.choicePrompt, rejection config line]) := by
  rw [choiceLoop_step, readString_typedLine line rest h]
  simp only [Bool.false_eq_true, if_false, trimNewline_typedLine line h, choiceOf, rejection]
  cases hA : Atoi line with
  | error e => simp
  | ok v =>
    by_cases hr : v < 0 ∨ v ≥ (config.Applications.length : Int)
    · have hr2 : ¬ (0 ≤ v ∧ v < (config.Applications.length : Int)) := by omega
      simp [hr, hr2]
    · have hr2 : 0 ≤ v ∧ v < (config.Applications.length : Int) := by omega
      simp [hr, hr2]

theorem choiceLoop_skipped (config : Config) (skipped : List (List Char)) (rest : Stdin)
    (out : List Out) (h : ∀ l ∈ skipped, '\n' ∉ l ∧ choiceOf config l = none) :
    choiceLoop config (skipped.map typedLine ++ rest) out =
      choiceLoop config rest (out ++ reprompts config skipped) := by
  induction skipped generalizing out with
  | nil => simp [reprompts]
  | cons l ls ih =>
    have hl := h l (by simp)
    have hls : ∀ l' ∈ ls, '\n' ∉ l' ∧ choiceOf config l' = none :=
      fun l' hl' => h l' (by simp [hl'])
    simp only [List.map_cons, List.cons_append]
    rw [choiceLoop_typedLine config l _ out hl.1, hl.2]
    simp only
    rw [ih _ hls]
    simp [reprompts]

theorem choiceLoop_ok_range (config : Config) (v : Int) (n : Nat) :
    ∀ (stdin : Stdin) (out : List Out), stdin.length ≤ n →
      (choiceLoop config stdin out).result = .ok v →
      0 ≤ v ∧ v < (config.Applications.length : Int) := by
  induction n with
  | zero =>
    intro stdin out hlen hres
    have hnil : stdin = [] := List.eq_nil_of_length_eq_zero (by omega)
    subst hnil
    rw [choiceLoop_step] at hres
    simp [readString_nil] at hres
  | succ n ih =>
    intro stdin out hlen hres
    rw [choiceLoop_step] at hres
    by_cases hf : (readString stdin).failed = true
    · simp [hf] at hres
    · have hlt : (readString stdin).rest.length < stdin.length :=
        readStringFrom_rest_lt [] stdin (by simpa using hf)
      rw [if_neg hf] at hres
      cases hA : Atoi (trimNewline (readString stdin).input) with
      | error e =>
        simp only [hA] at hres
        exact ih _ _ (by omega) hres
      | ok c =>
        simp only [hA] at hres
        by_cases hr : c < 0 ∨ c ≥ (config.Applications.length : Int)
        · rw [if_pos hr] at hres
          exact ih _ _ (by omega) hres
        · rw [if_neg hr] at hres
          simp only [Except.ok.injEq] at hres
          subst hres
          omega

/-- When standard input delivers the typed lines one per read, every line that does
not parse as an integer within `[0, count-1]` is answered by its notice and a new prompt,
and `getChoiceFromTerminal` returns, without error, the value of the first line that does
parse as such an integer; the input after that line is left unread. -/
theorem getChoiceFromTerminal_first_valid (config : Config) (skipped : List (List Char))
    (line : List Char) (v : Int) (later : Stdin)
    (hskipped : ∀ l ∈ skipped, '\n' ∉ l ∧ choiceOf config l = none)
    (hline : '\n' ∉ line) (hv : choiceOf config line = some v) :
    getChoiceFromTerminal config (skipped.map typedLine ++ typedLine line :: later) =
      ⟨.ok v,
        .chooseApplication :: menuItems config.Applications 0 ++ reprompts config skipped ++
          [.choicePrompt],
        later⟩ := by
  unfold getChoiceFromTerminal
  rw [choiceLoop_skipped config skipped _ _ hskipped, choiceLoop_typedLine config line later _ hline,
    hv]

/-- With one line per read, the lines `abc`, `-1` and `0` against the three default
applications give choice 0 after two rejected lines. -/
theorem getChoiceFromTerminal_first_valid_witness :
    getChoiceFromTerminal defaultConfig ["abc\n".data, "-1\n".data, "0\n".data] =
      ⟨.ok 0,
        [.chooseApplication, .menuItem 0 "i3", .menuItem 1 "vim", .menuItem 2 "vifm",
          .choicePrompt, .invalidInput "abc".data .syntax_,
          .choicePrompt, .choiceRange 2,
          .choicePrompt],
        []⟩ :=
  getChoiceFromTerminal_first_valid defaultConfig ["abc".data, "-1".data] "0".data 0 []
    (by decide) (by decide) (by decide)

theorem choiceLoop_end (config : Config) (final : Stdin) (out : List Out)
    (hfinal : (readString final).failed = true) :
    (choiceLoop config final out).result = .error .readInput := by
  rw [choiceLoop_step, if_pos hfinal]

theorem choiceLoop_lines_ok (config : Config) (lines : List (List Char)) (final : Stdin)
    (v : Int) (hlines : ∀ l ∈ lines, '\n' ∉ l) (hfinal : (readString final).failed = true) :
    ∀ out : List Out, (choiceLoop config (lines.map typedLine ++ final) out).result = .ok v →
      ∃ l ∈ lines, choiceOf config l = some v := by
  induction lines with
  | nil =>
    intro out hres
    simp only [List.map_nil, List.nil_append] at hres
    rw [choiceLoop_end config final out hfinal] at hres
    simp at hres
  | cons l ls ih =>
    intro out hres
    have hl : '\n' ∉ l := hlines l (by simp)
    have hls : ∀ l' ∈ ls, '\n' ∉ l' := fun l' hl' => hlines l' (by simp [hl'])
    simp only [List.map_cons, List.cons_append] at hres
    rw [choiceLoop_typedLine config l _ out hl] at hres
    cases hc : choiceOf config l with
    | none =>
      simp only [hc] at hres
      obtain ⟨l', hl', hv⟩ := ih hls _ hres
      exact ⟨l', by simp [hl'], hv⟩
    | some w =>
      simp only [hc, Except.ok.injEq] at hres
      subst hres
      exact ⟨l, by simp, hc⟩

/-- When standard input delivers the typed lines one per read and ends, possibly
after a last text without newline, before any line that parses as an integer within
`[0, count-1]`, `getChoiceFromTerminal` returns the read error; and whenever it returns
a choice, that choice is the value of a complete valid line of the input. -/
theorem getChoiceFromTerminal_end_of_input (config : Config) (lines : List (List Char))
    (last : List Char) (hlines : ∀ l ∈ lines, '\n' ∉ l) (hlast : '\n' ∉ last) :
    ((∀ l ∈ lines, choiceOf config l = none) →
      (getChoiceFromTerminal config (lines.map typedLine ++ [last])).result
          = .error .readInput ∧
      (getChoiceFromTerminal config (lines.map typedLine)).result = .error .readInput) ∧
    (∀ v, (getChoiceFromTerminal config (lines.map typedLine ++ [last])).result = .ok v →
      ∃ l ∈ lines, choiceOf config l = some v) ∧
    (∀ v, (getChoiceFromTerminal config (lines.map typedLine)).result = .ok v →
      ∃ l ∈ lines, choiceOf config l = some v) := by
  have hfinal := readString_unterminated last hlast
  have hnil : (readString []).failed = true := rfl
  refine ⟨?_, ?_, ?_⟩
  · intro hnone
    have hsk : ∀ l ∈ lines, '\n' ∉ l ∧ choiceOf config l = none :=
      fun l hl => ⟨hlines l hl, hnone l hl⟩
    constructor
    · unfold getChoiceFromTerminal
      rw [choiceLoop_skipped config lines _ _ hsk]
      exact choiceLoop_end config _ _ hfinal
    · unfold getChoiceFromTerminal
      have := choiceLoop_skipped config lines [] (.chooseApplication ::
        menuItems config.Applications 0) hsk
      rw [List.append_nil] at this
      rw [this]
      exact choiceLoop_end config _ _ hnil
  · intro v hres
    exact choiceLoop_lines_ok config lines [last] v hlines hfinal _ hres
  · intro v hres
    unfold getChoiceFromTerminal at hres
    have := choiceLoop_lines_ok config lines [] v hlines hnil
      (.chooseApplication :: menuItems config.Applications 0)
    rw [List.append_nil] at this
    exact this hres

/-- With one line per read: after the rejected lines `abc` and `7`, input that ends in the
text `1` without newline gives the read error, not choice 1. -/
theorem getChoiceFromTerminal_end_of_input_witness :
    (getChoiceFromTerminal defaultConfig ["abc\n".data, "7\n".data, "1".data]).result
      = .error .readInput :=
  ((getChoiceFromTerminal_end_of_input defaultConfig ["abc".data, "7".data] "1".data
    (by decide) (by decide)).1 (by decide)).1

theorem application_of_range (config : Config) (choice : Int)
    (h : 0 ≤ choice ∧ choice < (config.Applications.length : Int)) :
    ∃ app, application config choice = some app := by
  have hlt : choice.toNat < config.Applications.length := by omega
  refine ⟨config.Applications[choice.toNat], ?_⟩
  unfold application
  rw [if_neg (by omega)]
  exact List.getElem?_eq_getElem hlt

theorem getChoiceFromCommandLine_ok_range (config : Config) (appName : String) (choice : Int)
    (h : getChoiceFromCommandLine config appName = .ok choice) :
    0 ≤ choice ∧ choice < (config.Applications.length : Int) := by
  unfold getChoiceFromCommandLine at h
  cases hf : findByName appName config.Applications 0 with
  | none => simp [hf] at h
  | some k =>
    simp only [hf, Except.ok.injEq] at h
    obtain ⟨j, hk, ⟨d, hd, -⟩, -⟩ := (findByName_eq_some appName config.Applications 0 k).1 hf
    obtain ⟨hlt, -⟩ := List.getElem?_eq_some.1 hd
    omega

/-- C10. Whenever `getChoiceFromTerminal` or `getChoiceFromCommandLine` returns without
error, the choice satisfies `0 ≤ choice < len(Applications)`, so the descriptor
`config.Applications[choice]` that `main` takes exists; in particular the settings list is
not empty, and with an empty list no selection succeeds. -/
theorem selection_in_range (config : Config) (stdin : Stdin) (appName : String) (choice : Int)
    (h : (getChoiceFromTerminal config stdin).result = .ok choice ∨
      getChoiceFromCommandLine config appName = .ok choice) :
    0 ≤ choice ∧ choice < (config.Applications.length : Int) ∧
      (∃ app, application config choice = some app) ∧ config.Applications ≠ [] := by
  have hr : 0 ≤ choice ∧ choice < (config.Applications.length : Int) := by
    rcases h with h | h
    · exact choiceLoop_ok_range config choice stdin.length stdin _ (Nat.le_refl _) h
    · exact getChoiceFromCommandLine_ok_range config appName choice h
  refine ⟨hr.1, hr.2, application_of_range config choice hr, ?_⟩
  intro hnil
  rw [hnil] at hr
  simp at hr
  omega

/-- An instance of C10: choosing `vim` by name against the default settings gives
index 1, which is in range. -/
theorem selection_in_range_witness :
    getChoiceFromCommandLine defaultConfig "vim" = .ok 1 ∧
    (0 : Int) ≤ 1 ∧ (1 : Int) < (defaultConfig.Applications.length : Int) ∧
      (∃ app, application defaultConfig 1 = some app) ∧ defaultConfig.Applications ≠ [] :=
  ⟨rfl, selection_in_range defaultConfig [] "vim" 1 (Or.inr rfl)⟩

/-! ## Extraction: proofs -/

theorem appendMatches_eq (ms : List (List String)) (h : ∀ m ∈ ms, 3 ≤ m.length) :
    ∀ keybindings : List Keybinding,
      appendMatches ms keybindings = some (keybindings ++ ms.map keybindingOf) := by
  induction ms with
  | nil => intro keybindings; simp [appendMatches]
  | cons m rest ih =>
    intro keybindings
    have hm : 3 ≤ m.length := h m (by simp)
    have hrest : ∀ m' ∈ rest, 3 ≤ m'.length := fun m' hm' => h m' (by simp [hm'])
    have h1 : m[1]? = some (m.getD 1 "") := by
      rw [List.getD_eq_getElem?_getD, List.getElem?_eq_getElem (by omega)]; rfl
    have h2 : m[2]? = some (m.getD 2 "") := by
      rw [List.getD_eq_getElem?_getD, List.getElem?_eq_getElem (by omega)]; rfl
    simp only [appendMatches, h1, h2, ih hrest, List.map_cons, keybindingOf]
    simp

theorem extractLoop_eq (findAllSubmatch : String → List (List String))
    (h : ∀ line m, m ∈ findAllSubmatch line → 3 ≤ m.length) (lines : List String) :
    ∀ keybindings : List Keybinding,
      extractLoop findAllSubmatch lines keybindings =
        some (keybindings ++ keybindingsOf findAllSubmatch lines) := by
  induction lines with
  | nil => intro keybindings; simp [extractLoop, keybindingsOf]
  | cons line rest ih =>
    intro keybindings
    unfold extractLoop
    simp only
    by_cases hlen : (findAllSubmatch line).length > 0
    · rw [if_pos hlen, appendMatches_eq _ (h line)]
      simp only
      rw [ih]
      simp [keybindingsOf]
    · rw [if_neg hlen, ih]
      have hnil : findAllSubmatch line = [] := List.eq_nil_of_length_eq_zero (by omega)
      simp [keybindingsOf, hnil]

theorem keybindingsOf_length (findAllSubmatch : String → List (List String))
    (lines : List String) :
    (keybindingsOf findAllSubmatch lines).length = matchCount findAllSubmatch lines := by
  induction lines with
  | nil => rfl
  | cons line rest ih => simp [keybindingsOf, matchCount, ih]

/-- C3. With the regular-expression engine as a function from a line to its ordered
matches, each with at least two capture groups, the extraction loop over the lines of any
file content yields the keybindings (group 1, group 2) of every match, line by line in
file order and match by match within a line; the number of entries is the total number
of matches, and an empty file yields no entry. -/
theorem extractLoop_collects (findAllSubmatch : String → List (List String))
    (confBytes : List Char)
    (h : ∀ line m, m ∈ findAllSubmatch line → 3 ≤ m.length) :
    extractLoop findAllSubmatch (scanLines confBytes).1 [] =
        some (keybindingsOf findAllSubmatch (scanLines confBytes).1) ∧
    (keybindingsOf findAllSubmatch (scanLines confBytes).1).length =
        matchCount findAllSubmatch (scanLines confBytes).1 ∧
    extractLoop findAllSubmatch (scanLines []).1 [] = some [] := by
  refine ⟨?_, keybindingsOf_length _ _, rfl⟩
  rw [extractLoop_eq findAllSubmatch h]
  simp

/-- The scenario of C3: the example file with the example matcher yields the one entry
`$mod+Return` / `exec alacritty`. -/
theorem extractLoop_collects_witness :
    extractLoop exampleMatcher (scanLines exampleTarget).1 [] =
        some [⟨"$mod+Return", "exec alacritty"⟩] ∧
    (keybindingsOf exampleMatcher (scanLines exampleTarget).1).length = 1 :=
  have h := extractLoop_collects exampleMatcher exampleTarget (by
    intro line m hm
    unfold exampleMatcher at hm
    by_cases hl : line = "bindsym $mod+Return exec alacritty"
    · simp only [hl, if_true, List.mem_singleton] at hm
      subst hm; decide
    · simp [hl] at hm)
  ⟨h.1.trans (by rfl), h.2.1.trans (by rfl)⟩

theorem extractLoop_no_match (findAllSubmatch : String → List (List String))
    (lines : List String) (h : ∀ line ∈ lines, findAllSubmatch line = []) :
    ∀ keybindings : List Keybinding,
      extractLoop findAllSubmatch lines keybindings = some keybindings := by
  induction lines with
  | nil => intro keybindings; rfl
  | cons line rest ih =>
    intro keybindings
    have hl : findAllSubmatch line = [] := h line (by simp)
    have hrest : ∀ l ∈ rest, findAllSubmatch l = [] := fun l hl' => h l (by simp [hl'])
    unfold extractLoop
    simp only [hl, List.length_nil, gt_iff_lt, Nat.lt_irrefl, if_false]
    exact ih hrest keybindings

/-- C4, the claim as stated fails.  The pattern `^(a)$` compiles and has one capture
group; on an empty target file, and on a target file without a matching line, extraction
produces the keybinding table with zero entries, and on the target file with the line `a`
it ends in the out-of-range access to the capture groups. -/
theorem extraction_few_groups_counterexample :
    anchoredA.numSubexp < 2 ∧
    exampleLibs.regexpCompile "^(a)$" = .ok anchoredA ∧
    extraction exampleLibs exampleHome "^(a)$" [] = .ok [] ∧
    extraction exampleLibs exampleHome "^(a)$" "b\n".data = .ok [] ∧
    extraction exampleLibs exampleHome "^(a)$" "a\n".data = .error .panicIndex := by
  refine ⟨by decide, rfl, rfl, rfl, rfl⟩

theorem appendMatches_short (m : List String) (rest : List (List String))
    (keybindings : List Keybinding) (h : m.length < 3) :
    appendMatches (m :: rest) keybindings = none := by
  have h2 : m[2]? = none := List.getElem?_eq_none (by omega)
  unfold appendMatches
  rw [h2]
  cases m[1]? <;> rfl

theorem extractLoop_match_short (findAllSubmatch : String → List (List String))
    (hshort : ∀ line m, m ∈ findAllSubmatch line → m.length < 3) (lines : List String)
    (hmatch : ∃ line ∈ lines, findAllSubmatch line ≠ []) :
    ∀ keybindings : List Keybinding,
      extractLoop findAllSubmatch lines keybindings = none := by
  induction lines with
  | nil => simp at hmatch
  | cons line rest ih =>
    intro keybindings
    unfold extractLoop
    dsimp only
    cases hf : findAllSubmatch line with
    | nil =>
      simp only [List.length_nil, gt_iff_lt, Nat.lt_irrefl, if_false]
      apply ih
      obtain ⟨l, hl, hne⟩ := hmatch
      rcases List.mem_cons.1 hl with hl1 | hl1
      · subst hl1; exact absurd hf hne
      · exact ⟨l, hl1, hne⟩
    | cons m ms =>
      have hm : m.length < 3 := hshort line m (by simp [hf])
      simp only [List.length_cons, gt_iff_lt, Nat.zero_lt_succ, if_true]
      rw [appendMatches_short m ms keybindings hm]

/-- C4 as amended.  For a pattern that compiles to a regular expression with fewer than
two capture groups, extraction reports no fatal error for the missing groups (the only
fatal error it reports is the scanner's, for a line that is too long): on every target
file content whose scanned lines have no match it ends with the keybinding table of zero
entries, and on a content with a matching scanned line it produces no keybinding table. -/
theorem extraction_few_groups (libs : Libs) (configPath : Path) (pattern : String)
    (re : Regexp) (confBytes : List Char)
    (hcompile : libs.regexpCompile pattern = .ok re) (hgroups : re.numSubexp < 2) :
    ((∀ line ∈ (scanLines confBytes).1, re.findAllSubmatch line = []) →
      extraction libs configPath pattern confBytes =
        if (scanLines confBytes).2 then .error (.fatal (.parseTarget configPath))
        else .ok []) ∧
    ((∃ line ∈ (scanLines confBytes).1, re.findAllSubmatch line ≠ []) →
      ∀ keybindings, extraction libs configPath pattern confBytes ≠ .ok keybindings) ∧
    (∀ f, extraction libs configPath pattern confBytes = .error (.fatal f) →
      f = .parseTarget configPath ∧ (scanLines confBytes).2 = true) := by
  refine ⟨?_, ?_, ?_⟩
  · intro hnomatch
    unfold extraction
    simp only [hcompile]
    rw [extractLoop_no_match re.findAllSubmatch _ hnomatch]
  · intro hmatch keybindings
    have hshort : ∀ line m, m ∈ re.findAllSubmatch line → m.length < 3 := by
      intro line m hm
      have := re.submatch_length line m hm
      omega
    unfold extraction
    simp only [hcompile]
    rw [extractLoop_match_short re.findAllSubmatch hshort _ hmatch]
    simp
  · intro f hf
    unfold extraction at hf
    simp only [hcompile] at hf
    cases hl : extractLoop re.findAllSubmatch (scanLines confBytes).1 [] with
    | none => simp [hl] at hf
    | some keybindings =>
      simp only [hl] at hf
      by_cases hs : (scanLines confBytes).2 = true
      · simp only [hs, if_true, Except.error.injEq, Exit.fatal.injEq] at hf
        exact ⟨hf.symm, hs⟩
      · simp [hs] at hf

/-- An instance of the amended C4: the one-group pattern `^(a)$` on a target file with
the single line `b` gives the table of zero entries. -/
theorem extraction_few_groups_witness :
    extraction exampleLibs exampleHome "^(a)$" "b\n".data = .ok [] :=
  (extraction_few_groups exampleLibs exampleHome "^(a)$" anchoredA "b\n".data rfl
    (by decide)).1 (by
      intro line hline
      have hl : line = "b" := by
        have : (scanLines "b\n".data).1 = ["b"] := rfl
        rw [this] at hline
        simpa using hline
      subst hl
      rfl)

/-! ## The file system: proofs -/

theorem nodeAt_cons_of_ne (k p : List String) (n : Node) (nodes : List (List String × Node))
    (h : k ≠ p) : nodeAt ((k, n) :: nodes) p = nodeAt nodes p := by
  simp [nodeAt, h]

theorem nodeAt_cons_self (k : List String) (n : Node) (nodes : List (List String × Node)) :
    nodeAt ((k, n) :: nodes) k = some n := by
  simp [nodeAt]

/-- Resolution of a path with one more component, through the resolution of the path. -/
theorem walkFrom_snoc (nodes : List (List String × Node)) (q : List String) (c : String) :
    ∀ pre : List String,
      walkFrom nodes pre (q ++ [c]) =
        match walkFrom nodes pre q with
        | .error e => .error e
        | .ok (.file _) => .error .ENOTDIR
        | .ok (.dir _) =>
          match nodeAt nodes (pre ++ q ++ [c]) with
          | none => .error .ENOENT
          | some n => .ok n := by
  induction q with
  | nil =>
    intro pre
    simp only [List.nil_append, walkFrom, List.append_nil]
    cases h : nodeAt nodes pre with
    | none => rfl
    | some n => cases n <;> rfl
  | cons d ds ih =>
    intro pre
    simp only [List.cons_append, walkFrom]
    cases h : nodeAt nodes pre with
    | none => rfl
    | some n =>
      cases n with
      | file content => rfl
      | dir w =>
        simp only
        have hstep := ih (pre ++ [d])
        simp only [List.append_assoc, List.singleton_append] at hstep
        simp only [List.append_eq, List.append_assoc]
        exact hstep

/-- A new entry at the path `k` does not change the resolution of shorter paths. -/
theorem walkFrom_cons_of_shorter (nodes : List (List String × Node)) (k : List String)
    (n : Node) (q : List String) :
    ∀ pre : List String, (pre ++ q).length < k.length →
      walkFrom ((k, n) :: nodes) pre q = walkFrom nodes pre q := by
  induction q with
  | nil =>
    intro pre hlen
    have hne : k ≠ pre := by
      intro hk; subst hk; simp at hlen
    simp [walkFrom, nodeAt_cons_of_ne k pre n nodes hne]
  | cons d ds ih =>
    intro pre hlen
    have hne : k ≠ pre := by
      intro hk; subst hk; simp at hlen
    simp only [walkFrom, nodeAt_cons_of_ne k pre n nodes hne]
    rw [ih (pre ++ [d]) (by simpa using hlen)]

theorem dropLast_append_getLast? (q : List String) (hq : q ≠ []) :
    ∃ c, q = q.dropLast ++ [c] := by
  refine ⟨q.getLast hq, ?_⟩
  exact (List.dropLast_append_getLast hq).symm

/-- After a successful creation the new node is what the path leads to. -/
theorem walkFrom_create (fs fs1 : FS) (q : List String) (n : Node)
    (h : fs.create q n = .ok fs1) :
    fs1.cwd = fs.cwd ∧ fs1.nodes = (q, n) :: fs.nodes ∧ walkFrom fs1.nodes [] q = .ok n := by
  unfold FS.create at h
  cases hw : walkFrom fs.nodes [] q.dropLast with
  | error e => simp [hw] at h
  | ok parent =>
    cases parent with
    | file content => simp [hw] at h
    | dir w =>
      cases w with
      | false => simp [hw] at h
      | true =>
        simp only [hw, Except.ok.injEq] at h
        subst h
        refine ⟨rfl, rfl, ?_⟩
        simp only
        by_cases hq : q = []
        · subst hq
          simp [walkFrom, nodeAt_cons_self]
        · obtain ⟨c, hc⟩ := dropLast_append_getLast? q hq
          have hlen : ([] ++ q.dropLast).length < q.length := by
            have := congrArg List.length hc
            simp at this
            simp
            omega
          have hpre := walkFrom_cons_of_shorter fs.nodes q n q.dropLast [] hlen
          have hsnoc := walkFrom_snoc ((q, n) :: fs.nodes) q.dropLast c []
          rw [← hc, hpre, hw] at hsnoc
          simp only [List.nil_append] at hsnoc
          rw [← hc, nodeAt_cons_self] at hsnoc
          exact hsnoc

/-! ## Bootstrap of the settings file: proofs -/

theorem cleanOnto_snoc (absolute : Bool) (name : String)
    (hname : name ≠ "" ∧ name ≠ "." ∧ name ≠ "..") (cs : List String) :
    ∀ stack : List String,
      cleanOnto absolute stack (cs ++ [name]) = cleanOnto absolute stack cs ++ [name] := by
  obtain ⟨h1, h2, h3⟩ := hname
  induction cs with
  | nil =>
    intro stack
    simp [cleanOnto, h1, h2, h3]
  | cons c rest ih =>
    intro stack
    simp only [List.cons_append, cleanOnto]
    by_cases hc : c = "" ∨ c = "."
    · rw [if_pos hc, if_pos hc]
      exact ih stack
    · rw [if_neg hc, if_neg hc]
      by_cases hd : c = ".."
      · rw [if_pos hd, if_pos hd]
        cases stack with
        | nil =>
          cases absolute with
          | true => simpa using ih []
          | false => simpa using ih [".."]
        | cons top below =>
          simp only
          by_cases ht : top = ".."
          · rw [if_pos ht, if_pos ht]
            exact ih _
          · rw [if_neg ht, if_neg ht]
            exact ih _
      · rw [if_neg hd, if_neg hd]
        exact ih _

theorem resolve_child (fs : FS) (p : Path) (name : String) (q : List String)
    (hname : name ≠ "" ∧ name ≠ "." ∧ name ≠ "..")
    (h : fs.resolve p = some q) : fs.resolve (p.child name) = some (q ++ [name]) := by
  cases p with
  | empty => simp [FS.resolve] at h
  | mk absolute parts =>
    cases absolute with
    | true =>
      simp only [FS.resolve, Option.some.injEq] at h
      simp [Path.child, FS.resolve, h]
    | false =>
      simp only [FS.resolve, Option.some.injEq] at h
      simp only [Path.child, FS.resolve, Option.some.injEq]
      rw [cleanOnto_snoc true name hname parts, h]

theorem resolve_of_cwd (fs fs1 : FS) (p : Path) (h : fs1.cwd = fs.cwd) :
    fs1.resolve p = fs.resolve p := by
  unfold FS.resolve; rw [h]

theorem resolve_configurationDirectory (fs : FS) (userHomeDir : Path) :
    ∃ q, fs.resolve (configurationDirectory (some userHomeDir)).1 = some q := by
  cases userHomeDir with
  | empty => exact ⟨_, rfl⟩
  | mk absolute parts =>
    cases absolute with
    | true => exact ⟨_, rfl⟩
    | false => exact ⟨_, rfl⟩

theorem stat_of_resolve (fs : FS) (p : Path) (q : List String) (h : fs.resolve p = some q) :
    fs.stat p =
      match walkFrom fs.nodes [] q with
      | .error e => .error e
      | .ok _ => .ok () := by
  simp [FS.stat, FS.lookup, h]

theorem ensureDirectory_noop (fs : FS) (p : Path) (q : List String)
    (hq : fs.resolve p = some q) (h : walkFrom fs.nodes [] q ≠ .error .ENOENT) :
    ensureDirectory fs p = .ok fs := by
  unfold ensureDirectory
  rw [stat_of_resolve fs p q hq]
  cases hw : walkFrom fs.nodes [] q with
  | ok n => rfl
  | error e => cases e <;> first | rfl | exact absurd hw h

theorem ensureDirectory_spec (fs fs1 : FS) (p : Path) (q : List String)
    (hq : fs.resolve p = some q) (h : ensureDirectory fs p = .ok fs1) :
    fs1.cwd = fs.cwd ∧ walkFrom fs1.nodes [] q ≠ .error .ENOENT ∧
      (fs1 = fs ∨ walkFrom fs.nodes [] q = .error .ENOENT) := by
  by_cases hw : walkFrom fs.nodes [] q = .error .ENOENT
  · unfold ensureDirectory at h
    rw [stat_of_resolve fs p q hq, hw] at h
    simp only [FS.mkdir, hq, hw] at h
    obtain ⟨hcwd, -, hwalk⟩ := walkFrom_create fs fs1 q (.dir true) h
    exact ⟨hcwd, by rw [hwalk]; simp, Or.inr hw⟩
  · rw [ensureDirectory_noop fs p q hq hw] at h
    simp only [Except.ok.injEq] at h
    subst h
    exact ⟨rfl, hw, Or.inl rfl⟩

theorem ensureFile_noop (libs : Libs) (fs : FS) (p : Path) (q : List String)
    (hq : fs.resolve p = some q) (h : walkFrom fs.nodes [] q ≠ .error .ENOENT) :
    ensureFile libs fs p = (none, fs) := by
  unfold ensureFile
  rw [stat_of_resolve fs p q hq]
  cases hw : walkFrom fs.nodes [] q with
  | ok n => rfl
  | error e => cases e <;> first | rfl | exact absurd hw h

theorem ensureFile_spec (libs : Libs) (fs fs1 : FS) (p : Path) (q : List String)
    (hq : fs.resolve p = some q) (h : ensureFile libs fs p = (none, fs1)) :
    fs1.cwd = fs.cwd ∧ walkFrom fs1.nodes [] q ≠ .error .ENOENT ∧
      (fs1 = fs ∨
        (walkFrom fs.nodes [] q = .error .ENOENT ∧
          ∃ bytes, libs.yamlMarshal defaultConfig = .ok bytes ∧
            fs1.nodes = (q, .file bytes) :: fs.nodes ∧
            walkFrom fs1.nodes [] q = .ok (.file bytes))) := by
  by_cases hw : walkFrom fs.nodes [] q = .error .ENOENT
  · unfold ensureFile at h
    rw [stat_of_resolve fs p q hq, hw] at h
    simp only at h
    cases hm : libs.yamlMarshal defaultConfig with
    | error msg => simp [hm] at h
    | ok bytes =>
      simp only [hm] at h
      cases hwr : fs.writeFile p bytes with
      | error e => simp [hwr] at h
      | ok fs2 =>
        simp only [hwr, Prod.mk.injEq, true_and] at h
        subst h
        simp only [FS.writeFile, hq, hw] at hwr
        obtain ⟨hcwd, hnodes, hwalk⟩ := walkFrom_create fs fs2 q (.file bytes) hwr
        exact ⟨hcwd, by rw [hwalk]; simp, Or.inr ⟨hw, bytes, rfl, hnodes, hwalk⟩⟩
  · rw [ensureFile_noop libs fs p q hq hw] at h
    simp only [Prod.mk.injEq, true_and] at h
    subst h
    exact ⟨rfl, hw, Or.inl rfl⟩

theorem walkFrom_snoc_of_missing (nodes : List (List String × Node)) (q : List String)
    (c : String) (h : walkFrom nodes [] q = .error .ENOENT) :
    walkFrom nodes [] (q ++ [c]) = .error .ENOENT := by
  rw [walkFrom_snoc, h]

theorem ensureConfig_unchanged (libs : Libs) (home : Option Path) (fs : FS)
    (h : fs.stat (configurationPath (configurationDirectory home).1) ≠ .error .ENOENT) :
    (ensureConfig libs home fs).2 = fs := by
  cases home with
  | none =>
    simp [ensureConfig, configurationDirectory, ensureDirectory, FS.stat, FS.lookup,
      FS.resolve, FS.mkdir]
  | some userHomeDir =>
    obtain ⟨q, hq⟩ := resolve_configurationDirectory fs userHomeDir
    have hq1 := resolve_child fs _ "config.yml" q (by decide) hq
    have hw1 : walkFrom fs.nodes [] (q ++ ["config.yml"]) ≠ .error .ENOENT := by
      intro hw
      apply h
      unfold configurationPath
      rw [stat_of_resolve fs _ _ hq1, hw]
    have hw : walkFrom fs.nodes [] q ≠ .error .ENOENT :=
      fun hw => hw1 (walkFrom_snoc_of_missing fs.nodes q "config.yml" hw)
    unfold ensureConfig
    simp only
    rw [ensureDirectory_noop fs _ q hq hw]
    simp only
    unfold configurationPath
    rw [ensureFile_noop libs fs _ _ hq1 hw1]

theorem ensureConfig_second_run (libs : Libs) (home : Option Path) (fs fs1 : FS)
    (h : ensureConfig libs home fs = (none, fs1)) :
    ensureConfig libs home fs1 = (none, fs1) := by
  cases home with
  | none =>
    simp [ensureConfig, configurationDirectory, ensureDirectory, FS.stat, FS.lookup,
      FS.resolve, FS.mkdir] at h
  | some userHomeDir =>
    obtain ⟨q, hq⟩ := resolve_configurationDirectory fs userHomeDir
    unfold ensureConfig at h
    simp only at h
    cases hd : ensureDirectory fs (configurationDirectory (some userHomeDir)).1 with
    | error e => simp [hd] at h
    | ok fsm =>
      simp only [hd] at h
      obtain ⟨hcwd, hwalk, -⟩ := ensureDirectory_spec fs fsm _ q hq hd
      have hqm : fsm.resolve (configurationDirectory (some userHomeDir)).1 = some q := by
        rw [resolve_of_cwd fs fsm _ hcwd, hq]
      have hqm1 := resolve_child fsm _ "config.yml" q (by decide) hqm
      unfold configurationPath at h
      obtain ⟨hcwd1, hwalk1, hcase⟩ := ensureFile_spec libs fsm fs1 _ _ hqm1 h
      have hq1 : fs1.resolve (configurationDirectory (some userHomeDir)).1 = some q := by
        rw [resolve_of_cwd fsm fs1 _ hcwd1, hqm]
      have hq11 := resolve_child fs1 _ "config.yml" q (by decide) hq1
      have hwalkq : walkFrom fs1.nodes [] q ≠ .error .ENOENT := by
        rcases hcase with hsame | ⟨-, bytes, -, hnodes, -⟩
        · rw [hsame]; exact hwalk
        · rw [hnodes, walkFrom_cons_of_shorter fsm.nodes _ _ q [] (by simp)]
          exact hwalk
      unfold ensureConfig
      simp only
      rw [ensureDirectory_noop fs1 _ q hq1 hwalkq]
      simp only
      unfold configurationPath
      rw [ensureFile_noop libs fs1 _ _ hq11 hwalk1]

/-- C6. `ensureConfig` on an explicit file-system state: when `os.Stat` finds the
settings file (and whenever it fails with anything but "does not exist") the state, and
with it the content of the settings file, is left unchanged; and from any state in which
a first run succeeds, a second run succeeds and leaves the state of the first run, so the
settings file holds the same bytes after two runs as after one. -/
theorem ensureConfig_idempotent (libs : Libs) (home : Option Path) (fs : FS) :
    (fs.stat (configurationPath (configurationDirectory home).1) = .ok () →
      (ensureConfig libs home fs).2 = fs) ∧
    (fs.stat (configurationPath (configurationDirectory home).1) ≠ .error .ENOENT →
      (ensureConfig libs home fs).2 = fs) ∧
    (∀ fs1, ensureConfig libs home fs = (none, fs1) →
      ensureConfig libs home fs1 = (none, fs1) ∧
      (ensureConfig libs home fs1).2.readFile (configurationPath (configurationDirectory home).1)
        = fs1.readFile (configurationPath (configurationDirectory home).1)) := by
  refine ⟨?_, ensureConfig_unchanged libs home fs, ?_⟩
  · intro hstat
    exact ensureConfig_unchanged libs home fs (by rw [hstat]; simp)
  · intro fs1 h
    have h2 := ensureConfig_second_run libs home fs fs1 h
    exact ⟨h2, by rw [h2]⟩

/-- An instance of C6: on the example file system the first run creates the settings
directory and writes the settings file, and the second run leaves both as they are. -/
theorem ensureConfig_idempotent_witness :
    (ensureConfig exampleLibs (some exampleHome) exampleFS).1 = none ∧
    (ensureConfig exampleLibs (some exampleHome) exampleFS).2.readFile
      (.mk true ["home", "u", ".config", "keybindings", "config.yml"]) = .ok "applications".data ∧
    ensureConfig exampleLibs (some exampleHome)
        (ensureConfig exampleLibs (some exampleHome) exampleFS).2 =
      (none, (ensureConfig exampleLibs (some exampleHome) exampleFS).2) :=
  ⟨rfl, rfl,
    ((ensureConfig_idempotent exampleLibs (some exampleHome) exampleFS).2.2
      (ensureConfig exampleLibs (some exampleHome) exampleFS).2 rfl).1⟩

/-! ## The program: proofs -/

/-- When bootstrap and load succeed, `main` continues with the selection. -/
theorem main_loaded (libs : Libs) (userHomeDir : Path) (osArgs : List String) (stdin : Stdin)
    (fs fs1 : FS) (confBytes : List Char) (config : Config)
    (hensure : ensureConfig libs (some userHomeDir) fs = (none, fs1))
    (hread : fs1.readFile (configurationPath (configurationDirectory (some userHomeDir)).1)
      = .ok confBytes)
    (hload : libs.yamlUnmarshal confBytes = .ok config) :
    main libs (some userHomeDir) osArgs stdin fs =
      dispatch libs (some userHomeDir) osArgs stdin fs1 config
        (configurationPath (configurationDirectory (some userHomeDir)).1) := by
  unfold main
  simp only [hensure]
  simp only [configurationDirectory] at hread ⊢
  simp only [hread, hload]

/-- C7. When the settings have been loaded and the single argument is `-h` or `--help`,
`main` prints the usage text with the program name and the settings path, ends with exit
status 0, and has read the settings file only: no selection by name takes place and no
application's configuration file is read, whatever descriptors the settings hold. -/
theorem main_help (libs : Libs) (userHomeDir : Path) (prog arg : String) (stdin : Stdin)
    (fs fs1 : FS) (confBytes : List Char) (config : Config)
    (harg : arg = "-h" ∨ arg = "--help")
    (hensure : ensureConfig libs (some userHomeDir) fs = (none, fs1))
    (hread : fs1.readFile (configurationPath (configurationDirectory (some userHomeDir)).1)
      = .ok confBytes)
    (hload : libs.yamlUnmarshal confBytes = .ok config) :
    main libs (some userHomeDir) [prog, arg] stdin fs =
        ⟨.success, [.usage prog (configurationPath (configurationDirectory (some userHomeDir)).1)],
          fs1, [configurationPath (configurationDirectory (some userHomeDir)).1]⟩ ∧
    (main libs (some userHomeDir) [prog, arg] stdin fs).exit.status = 0 := by
  rw [main_loaded libs userHomeDir [prog, arg] stdin fs fs1 confBytes config hensure hread hload]
  unfold dispatch
  dsimp only
  rw [if_pos harg]
  exact ⟨rfl, rfl⟩

/-- An instance of C7: the settings hold a descriptor named `-h`, which selection by
name would find at index 0, and `keybindings -h` prints the usage text all the same. -/
theorem main_help_witness :
    getChoiceFromCommandLine helpNamedConfig "-h" = .ok 0 ∧
    main exampleLibs (some exampleHome) ["keybindings", "-h"] [] configuredFS =
        ⟨.success,
          [.usage "keybindings" (.mk true ["home", "u", ".config", "keybindings", "config.yml"])],
          configuredFS,
          [(.mk true ["home", "u", ".config", "keybindings", "config.yml"])]⟩ ∧
    (main exampleLibs (some exampleHome) ["keybindings", "-h"] [] configuredFS).exit.status = 0 :=
  ⟨rfl, main_help exampleLibs exampleHome "keybindings" "-h" [] configuredFS configuredFS
    "help".data helpNamedConfig (Or.inl rfl) rfl rfl rfl⟩

theorem choiceLoop_error (config : Config) (e : SelectError) (n : Nat) :
    ∀ (stdin : Stdin) (out : List Out), stdin.length ≤ n →
      (choiceLoop config stdin out).result = .error e → e = .readInput := by
  induction n with
  | zero =>
    intro stdin out hlen hres
    have hnil : stdin = [] := List.eq_nil_of_length_eq_zero (by omega)
    subst hnil
    rw [choiceLoop_step] at hres
    simp only [readString_nil, if_true, Except.error.injEq] at hres
    exact hres.symm
  | succ n ih =>
    intro stdin out hlen hres
    rw [choiceLoop_step] at hres
    by_cases hf : (readString stdin).failed = true
    · rw [if_pos hf] at hres
      simp only [Except.error.injEq] at hres
      exact hres.symm
    · have hlt : (readString stdin).rest.length < stdin.length :=
        readStringFrom_rest_lt [] stdin (by simpa using hf)
      rw [if_neg hf] at hres
      cases hA : Atoi (trimNewline (readString stdin).input) with
      | error e1 =>
        simp only [hA] at hres
        exact ih _ _ (by omega) hres
      | ok c =>
        simp only [hA] at hres
        by_cases hr : c < 0 ∨ c ≥ (config.Applications.length : Int)
        · rw [if_pos hr] at hres
          exact ih _ _ (by omega) hres
        · rw [if_neg hr] at hres
          simp at hres

theorem extraction_error (libs : Libs) (configPath : Path) (pattern : String)
    (confBytes : List Char) (exit : Exit)
    (h : extraction libs configPath pattern confBytes = .error exit) :
    ∀ e, exit ≠ .fatal (.selection e) := by
  intro e
  unfold extraction at h
  cases hc : libs.regexpCompile pattern with
  | error msg =>
    simp only [hc, Except.error.injEq] at h
    subst h; simp
  | ok re =>
    simp only [hc] at h
    cases hl : extractLoop re.findAllSubmatch (scanLines confBytes).1 [] with
    | none =>
      simp only [hl, Except.error.injEq] at h
      subst h; simp
    | some keybindings =>
      simp only [hl] at h
      by_cases hs : (scanLines confBytes).2 = true
      · simp only [hs, if_true, Except.error.injEq] at h
        subst h; simp
      · simp [hs] at h

/-- The run ends in the fatal error of the selection only when the selection failed. -/
theorem display_selection_error (libs : Libs) (home : Option Path) (fs : FS) (config : Config)
    (settingsPath : Path) (selected : Except SelectError Int) (out : List Out) (e : SelectError)
    (h : (display libs home fs config settingsPath selected out).exit = .fatal (.selection e)) :
    selected = .error e := by
  unfold display at h
  cases selected with
  | error e1 =>
    simp only [Exit.fatal.injEq, Fatal.selection.injEq] at h
    rw [h]
  | ok choice =>
    exfalso
    simp only at h
    cases home with
    | none => simp at h
    | some userHomeDir =>
      simp only at h
      cases ha : application config choice with
      | none => simp [ha] at h
      | some app =>
        simp only [ha] at h
        cases hr : fs.readFile (userHomeDir.join app.Path) with
        | error e2 => simp [hr] at h
        | ok confBytes =>
          simp only [hr] at h
          cases hx : extraction libs (userHomeDir.join app.Path) app.KeybindingPattern
              confBytes with
          | error exit =>
            simp only [hx] at h
            exact extraction_error libs _ _ _ exit hx e h
          | ok keybindings => simp [hx] at h

/-- C5, what the code does.  With two or more arguments after the program name the
selection ends in the fatal error of line 78 and selects nothing, but the count in the
message is `len(os.Args)`, which includes the program name: `n` arguments are reported
as `n + 1`.  In the example environment `keybindings i3 vim` reports 3.  With no or one
argument this error does not occur. -/
theorem dispatch_argCount (libs : Libs) (home : Option Path) (prog a b : String)
    (rest : List String) (stdin : Stdin) (fs : FS) (config : Config) (settingsPath : Path) :
    dispatch libs home (prog :: a :: b :: rest) stdin fs config settingsPath =
        ⟨.fatal (.selection (.argCount ((a :: b :: rest).length + 1))), [], fs, [settingsPath]⟩ ∧
    (main exampleLibs (some exampleHome) ["keybindings", "i3", "vim"] [] exampleFS).exit =
        .fatal (.selection (.argCount 3)) ∧
    (∀ n, (dispatch libs home [prog] stdin fs config settingsPath).exit ≠
        .fatal (.selection (.argCount n))) ∧
    (∀ n, (dispatch libs home [prog, a] stdin fs config settingsPath).exit ≠
        .fatal (.selection (.argCount n))) := by
  refine ⟨rfl, rfl, ?_, ?_⟩
  · intro n hexit
    have hsel := display_selection_error libs home fs config settingsPath _ _ _ hexit
    have := choiceLoop_error config (.argCount n) stdin.length stdin _ (Nat.le_refl _) hsel
    simp at this
  · intro n hexit
    unfold dispatch at hexit
    dsimp only at hexit
    by_cases harg : a = "-h" ∨ a = "--help"
    · rw [if_pos harg] at hexit
      simp at hexit
    · rw [if_neg harg] at hexit
      have hsel := display_selection_error libs home fs config settingsPath _ _ _ hexit
      unfold getChoiceFromCommandLine at hsel
      cases hf : findByName a config.Applications 0 with
      | none => simp [hf] at hsel
      | some k => simp [hf] at hsel

/-! ## Remarks on the model -/

/-- When no line is too long, the scanner delivers every line of the content. -/
theorem scanTokens_complete (lines : List (List Char)) (h : (scanTokens lines).2 = false) :
    (scanTokens lines).1 = lines.map fun line => String.mk (dropCR line) := by
  induction lines with
  | nil => rfl
  | cons line rest ih =>
    unfold scanTokens at h ⊢
    by_cases hlong : byteLen line ≥ maxScanTokenSize
    · simp [hlong] at h
    · simp only [hlong, if_false] at h ⊢
      simp [ih h]

/-- With a pattern of at least two capture groups, extraction yields the keybindings of
all scanned lines, unless the scanner fails. -/
theorem extraction_two_groups (libs : Libs) (configPath : Path) (pattern : String)
    (re : Regexp) (confBytes : List Char)
    (hcompile : libs.regexpCompile pattern = .ok re) (hgroups : 2 ≤ re.numSubexp) :
    extraction libs configPath pattern confBytes =
      if (scanLines confBytes).2 then .error (.fatal (.parseTarget configPath))
      else .ok (keybindingsOf re.findAllSubmatch (scanLines confBytes).1) := by
  have hlong : ∀ line m, m ∈ re.findAllSubmatch line → 3 ≤ m.length := by
    intro line m hm
    have := re.submatch_length line m hm
    omega
  unfold extraction
  simp only [hcompile]
  rw [extractLoop_eq re.findAllSubmatch hlong]
  simp

/-- C2, what the code does.  The prompt loop builds a fresh reader in every turn
(line 214), so the text that one read delivers after the first newline is lost with the
reader of that turn.  When a single read delivers the three lines `abc`, `-1` and `0`
together, the second turn finds the input at its end and the function returns the read
error instead of choice 0; and when one read delivers `abc` and `0` and the next read
delivers `1`, the function returns 1, not the value 0 of the first valid line. -/
theorem getChoiceFromTerminal_lines_in_one_read :
    (getChoiceFromTerminal defaultConfig ["abc\n-1\n0\n".data]).result = .error .readInput ∧
    choiceOf defaultConfig "0".data = some 0 ∧
    (getChoiceFromTerminal defaultConfig ["abc\n0\n".data, "1\n".data]).result = .ok 1 := by
  have hparse : Atoi (trimNewline "abc\n".data) = .error .syntax_ := rfl
  refine ⟨?_, rfl, ?_⟩
  · have hread : readString ["abc\n-1\n0\n".data] = ⟨"abc\n".data, false, []⟩ := rfl
    unfold getChoiceFromTerminal
    rw [choiceLoop_step, hread]
    simp only [Bool.false_eq_true, if_false, hparse]
    exact choiceLoop_end defaultConfig [] _ rfl
  · have hread : readString ["abc\n0\n".data, "1\n".data] =
        ⟨"abc\n".data, false, ["1\n".data]⟩ := rfl
    have hone : choiceOf defaultConfig "1".data = some 1 := rfl
    have hnext := choiceLoop_typedLine defaultConfig "1".data []
      (.chooseApplication :: menuItems defaultConfig.Applications 0 ++ [.choicePrompt] ++
        [.invalidInput (trimNewline "abc\n".data) .syntax_]) (by decide)
    rw [hone] at hnext
    unfold getChoiceFromTerminal
    rw [choiceLoop_step, hread]
    simp only [Bool.false_eq_true, if_false, hparse]
    exact congrArg TerminalResult.result hnext

/-- C9, what the code does.  The input `5`, newline, `71`, newline has no line that is a
valid choice among the three default applications.  When a first read delivers it up to
the `7` and a second read delivers the rest, the reader of the first turn takes the `7`
with it, the second turn reads the text `1`, and the function returns choice 1, which
the input does not hold as a complete line. -/
theorem getChoiceFromTerminal_line_across_reads :
    choiceOf defaultConfig "5".data = none ∧
    choiceOf defaultConfig "71".data = none ∧
    (getChoiceFromTerminal defaultConfig ["5\n7".data, "1\n".data]).result = .ok 1 := by
  refine ⟨rfl, rfl, ?_⟩
  have hread : readString ["5\n7".data, "1\n".data] = ⟨"5\n".data, false, ["1\n".data]⟩ := rfl
  have hparse : Atoi (trimNewline "5\n".data) = .ok 5 := rfl
  have hone : choiceOf defaultConfig "1".data = some 1 := rfl
  have hnext := choiceLoop_typedLine defaultConfig "1".data []
    (.chooseApplication :: menuItems defaultConfig.Applications 0 ++ [.choicePrompt] ++
      [.choiceRange ((defaultConfig.Applications.length : Int) - 1)]) (by decide)
  rw [hone] at hnext
  unfold getChoiceFromTerminal
  rw [choiceLoop_step, hread]
  simp only [Bool.false_eq_true, if_false, hparse]
  have hrange : (5 : Int) < 0 ∨ (5 : Int) ≥ (defaultConfig.Applications.length : Int) := by
    decide
  rw [if_pos hrange]
  exact congrArg TerminalResult.result hnext

end Keybindings
